import Mathlib

/-!
Verification of `zokrates_core/src/ir/expression.rs`: the canonical algebra
of linear and quadratic combinations of circuit variables over a field.

The Rust `LinComb<T>` wraps a `HashMap<Variable, T>`.  `HashMap` equality
(`PartialEq`) is order-independent map equality, so we embed the map
extensionally as a function `Variable → Option T` (`none` = key absent).
The `add`/`sub` loops iterate once over each (distinct) key of the right
operand and touch only that key of the accumulator, so their effect is
exactly the pointwise definitions given below.

The field type parameter `T` (the external `zokrates_field::field::Field`
capability) is embedded as a commutative ring with decidable equality,
which supplies everything the code uses: `T::zero()`, `T::one()`,
addition, subtraction, `From<i32>` for small literals, and equality tests.
-/

/-- Modelled from the spec: `ir::variable::Variable` (not part of the given
sources) is an opaque, hashable, equality-comparable identifier with one
distinguished sentinel, the constant-one variable `Variable::One`; ordinary
variables are numbered private or public wires. -/
inductive Variable : Type where
  | One : Variable
  | Private (n : Nat) : Variable
  | Public (n : Nat) : Variable
deriving DecidableEq, Repr

/-- `LinComb<T>`: the `HashMap<Variable, T>` viewed extensionally.
`m k = none` means the key is absent, `m k = some c` means the map holds
coefficient `c` for `k`.  Lean equality of these functions coincides with
Rust `HashMap` equality (same key set, same values). -/
abbrev LinComb (T : Type) : Type := Variable → Option T

namespace LinComb

variable {T : Type} [CommRing T] [DecidableEq T]

/-- `LinComb::summand(mult, var)`: the one-entry map `{var ↦ mult}`. -/
def summand (mult : T) (var : Variable) : LinComb T :=
  fun k => if k = var then some mult else none

/-- `LinComb::one()`: `summand(1, Variable::One)`. -/
def one : LinComb T := summand 1 Variable.One

/-- `<LinComb as Zero>::zero()`: the empty map. -/
def zero : LinComb T := fun _ => none

/-- `<LinComb as Zero>::is_zero()`: `self.0.len() == 0`, i.e. the map has
no entry at all. -/
def is_zero (m : LinComb T) : Prop := ∀ k, m k = none

/-- `impl From<Variable> for LinComb`: insert `T::one()` under `v` into an
empty map. -/
def ofVariable (v : Variable) : LinComb T :=
  fun k => if k = v then some 1 else none

/-- `res.get(&k).unwrap_or(&T::zero())`: the coefficient of `k`, an absent
key counting as the additive identity. -/
def getOr0 (m : LinComb T) (k : Variable) : T := (m k).getD 0

/-- `impl Add for LinComb`: starting from a copy of `self`, for each entry
`(k, v)` of `other` compute `new_val = v + res.get(&k).unwrap_or(&0)` and
remove `k` when `new_val == 0`, otherwise insert `new_val`.  Each loop
iteration touches exactly the key it reads, so pointwise: keys absent from
`other` keep `self`'s value (present or not), and keys of `other` hold the
sum, pruned when it is zero. -/
def add (a b : LinComb T) : LinComb T := fun k =>
  match b k with
  | none => a k
  | some v => if v + getOr0 a k = 0 then none else some (v + getOr0 a k)

/-- `impl Sub for LinComb`: identical to `add` except the accumulated value
is `T::zero() - v + res.get(&k).unwrap_or(&0)`. -/
def sub (a b : LinComb T) : LinComb T := fun k =>
  match b k with
  | none => a k
  | some v => if 0 - v + getOr0 a k = 0 then none else some (0 - v + getOr0 a k)

/-- Invariant I1 of the spec: the map holds no explicit zero coefficient. -/
def Canonical (m : LinComb T) : Prop := ∀ k, m k ≠ some 0

end LinComb

/-- `QuadComb<T>`: a pair of linear combinations, `left * right` held
symbolically. -/
structure QuadComb (T : Type) where
  left : LinComb T
  right : LinComb T

namespace QuadComb

variable {T : Type} [CommRing T] [DecidableEq T]

/-- `QuadComb::from_linear_combinations(left, right)`. -/
def from_linear_combinations (left right : LinComb T) : QuadComb T :=
  { left := left, right := right }

/-- `impl From<LinComb> for QuadComb`:
`QuadComb::from_linear_combinations(LinComb::one(), lc)`. -/
def ofLinComb (lc : LinComb T) : QuadComb T :=
  from_linear_combinations LinComb.one lc

/-- `impl From<Variable> for QuadComb`: `LinComb::from(v).into()`. -/
def ofVariable (v : Variable) : QuadComb T :=
  ofLinComb (LinComb.ofVariable v)

end QuadComb

open LinComb

/-- C2: for every LinearCombination `a` (whatever its variable content,
canonical or not), `a.subtract(a)` is structurally equal to `zero()`: the
empty mapping, with no explicit-zero entry left behind; in particular no
entry at all remains for any variable of `a`. -/
theorem sub_self_eq_zero {T : Type} [CommRing T] [DecidableEq T]
    (a : LinComb T) : a.sub a = LinComb.zero := by
  funext k
  unfold LinComb.sub LinComb.zero LinComb.getOr0
  cases h : a k with
  | none => simp [h]
  | some v => simp [h]

/-- C6: converting a LinearCombination `lc` into a QuadraticCombination
yields exactly the pair with left factor `LinComb::one()` and right factor
`lc` unchanged, for every `lc` including `zero()`. -/
theorem quad_from_lincomb {T : Type} [CommRing T] [DecidableEq T]
    (lc : LinComb T) :
    QuadComb.ofLinComb lc = { left := LinComb.one, right := lc } := rfl

/-- C8: converting a Variable `v` into a LinearCombination yields exactly
`summand(1, v)` where `1` is the multiplicative identity, and `one()` is
exactly `summand(1, Variable::One)`. -/
theorem variable_lift_eq_summand {T : Type} [CommRing T] [DecidableEq T]
    (v : Variable) :
    (LinComb.ofVariable v : LinComb T) = LinComb.summand 1 v ∧
      (LinComb.one : LinComb T) = LinComb.summand 1 Variable.One :=
  ⟨rfl, rfl⟩

/-- C9: `add` and `sub` only rewrite the keys of the right operand: a
variable present in `a` but absent from `b` keeps exactly `a`'s
coefficient in both `a.add(b)` and `a.sub(b)`, even when that coefficient
is the additive identity. -/
theorem add_sub_frame_left {T : Type} [CommRing T] [DecidableEq T]
    (a b : LinComb T) (v : Variable) (c : T)
    (ha : a v = some c) (hb : b v = none) :
    (a.add b) v = some c ∧ (a.sub b) v = some c := by
  constructor <;> simp [LinComb.add, LinComb.sub, hb, ha]

/-- C9 witness: with `a = summand(0, Private 0)` and `b = zero()` over
`ZMod 5`, the variable is present in `a` with coefficient `0` and absent
from `b`, and both results keep the explicit `0` coefficient. -/
theorem add_sub_frame_left_witness :
    (LinComb.summand (0 : ZMod 5) (Variable.Private 0)) (Variable.Private 0)
        = some 0 ∧
      (LinComb.zero : LinComb (ZMod 5)) (Variable.Private 0) = none ∧
      (LinComb.add (LinComb.summand (0 : ZMod 5) (Variable.Private 0))
          LinComb.zero) (Variable.Private 0) = some 0 ∧
      (LinComb.sub (LinComb.summand (0 : ZMod 5) (Variable.Private 0))
          LinComb.zero) (Variable.Private 0) = some 0 :=
  ⟨rfl, rfl,
    (add_sub_frame_left _ LinComb.zero (Variable.Private 0) 0 rfl rfl).1,
    (add_sub_frame_left _ LinComb.zero (Variable.Private 0) 0 rfl rfl).2⟩

/-- C10: `is_zero` tests emptiness of the mapping, not algebraic zero:
`summand(0, v)` holds one entry, so it is not `is_zero` and is not
structurally equal to `zero()`, although it is algebraically zero. -/
theorem summand_zero_not_is_zero {T : Type} [CommRing T] [DecidableEq T]
    (v : Variable) :
    ¬ LinComb.is_zero (LinComb.summand (0 : T) v) ∧
      LinComb.summand (0 : T) v ≠ LinComb.zero := by
  constructor
  · intro h
    have hv := h v
    simp [LinComb.summand] at hv
  · intro h
    have hv := congrFun h v
    simp [LinComb.summand, LinComb.zero] at hv

/-- C1 counterexample: the claim fails for a non-canonical left operand.
With `a = summand(0, Private 0)` over `ZMod 5` and `b = zero()`, the loop
of `add` never visits `Private 0` (it is absent from `b`), so `a.add(b)`
keeps the explicit zero coefficient: the result is not free of
zero-coefficient entries. -/
theorem add_not_canonical_counterexample :
    ¬ LinComb.Canonical
        (LinComb.add (LinComb.summand (0 : ZMod 5) (Variable.Private 0))
          LinComb.zero) := by
  intro h
  exact h (Variable.Private 0) rfl

/-- C1 amended: for every pair of LinearCombinations, the coefficient of
every variable in `a.add(b)` (an absent key counting as zero) is the field
sum of the operands' coefficients; and provided the left operand carries
no explicit zero coefficient, every zero sum is omitted, so the result's
mapping contains no zero-coefficient entry. -/
theorem add_coeff_sum_and_canonical {T : Type} [CommRing T] [DecidableEq T]
    (a b : LinComb T) :
    (∀ v, LinComb.getOr0 (a.add b) v
        = LinComb.getOr0 a v + LinComb.getOr0 b v) ∧
      (a.Canonical → LinComb.Canonical (a.add b)) := by
  constructor
  · intro v
    unfold LinComb.add LinComb.getOr0
    cases h : b v with
    | none => simp [h]
    | some w =>
      simp only [h, Option.getD_some]
      by_cases hz : w + (a v).getD 0 = 0
      · rw [if_pos hz]
        simp only [Option.getD_none]
        rw [add_comm] at hz
        exact hz.symm
      · rw [if_neg hz]
        simp only [Option.getD_some]
        ring
  · intro ha v
    unfold LinComb.add
    cases h : b v with
    | none => exact ha v
    | some w =>
      simp only [h]
      by_cases hz : w + LinComb.getOr0 a v = 0
      · simp [hz]
      · simp [hz]

/-- C1 witness: over `ZMod 101`, `summand(3, Private 42)` is canonical, and
adding `summand(4, Private 33)` gives the pointwise field sums with no
zero-coefficient entry in the result. -/
theorem add_coeff_sum_and_canonical_witness :
    LinComb.Canonical (LinComb.summand (3 : ZMod 101) (Variable.Private 42)) ∧
      ((∀ v, LinComb.getOr0
            (LinComb.add (LinComb.summand (3 : ZMod 101) (Variable.Private 42))
              (LinComb.summand 4 (Variable.Private 33))) v
          = LinComb.getOr0
              (LinComb.summand (3 : ZMod 101) (Variable.Private 42)) v
            + LinComb.getOr0 (LinComb.summand 4 (Variable.Private 33)) v) ∧
        LinComb.Canonical
          (LinComb.add (LinComb.summand (3 : ZMod 101) (Variable.Private 42))
            (LinComb.summand 4 (Variable.Private 33)))) := by
  have hc : LinComb.Canonical
      (LinComb.summand (3 : ZMod 101) (Variable.Private 42)) := by
    intro k
    unfold LinComb.summand
    by_cases hk : k = Variable.Private 42 <;> simp [hk] <;> decide
  exact ⟨hc, (add_coeff_sum_and_canonical _ _).1,
    (add_coeff_sum_and_canonical _ _).2 hc⟩

/-- C3 counterexample: an explicit zero entry occupying the LEFT operand is
not normalized away when its variable is absent from the right operand:
over `ZMod 5`, `summand(0, Private 0).sub(zero())` still maps `Private 0`
to the explicit coefficient `0`. -/
theorem zero_entry_persists_counterexample :
    (LinComb.sub (LinComb.summand (0 : ZMod 5) (Variable.Private 0))
        LinComb.zero) (Variable.Private 0) = some 0 := rfl

/-- C3 amended: an explicit zero coefficient is normalized away by the next
`add` or `subtract` call exactly when its variable is visited by the loop,
i.e. when the variable is present in the RIGHT operand's mapping (in
particular always when the non-canonical combination itself is the right
operand, whatever the left operand holds): no zero coefficient survives at
such a variable. -/
theorem add_sub_normalize_right {T : Type} [CommRing T] [DecidableEq T]
    (a b : LinComb T) (v : Variable) (w : T) (hb : b v = some w) :
    (a.add b) v ≠ some 0 ∧ (a.sub b) v ≠ some 0 := by
  constructor
  · unfold LinComb.add
    simp only [hb]
    by_cases hz : w + LinComb.getOr0 a v = 0
    · simp [hz]
    · simp [hz]
  · unfold LinComb.sub
    simp only [hb]
    by_cases hz : 0 - w + LinComb.getOr0 a v = 0
    · simp [hz]
    · simp [hz]

/-- C3 witness: over `ZMod 5`, the non-canonical `summand(0, Private 0)`
placed as the right operand against a `zero()` left operand has its zero
entry normalized away by both `add` and `sub`. -/
theorem add_sub_normalize_right_witness :
    (LinComb.summand (0 : ZMod 5) (Variable.Private 0)) (Variable.Private 0)
        = some 0 ∧
      (LinComb.add (LinComb.zero : LinComb (ZMod 5))
            (LinComb.summand 0 (Variable.Private 0))) (Variable.Private 0)
          ≠ some 0 ∧
        (LinComb.sub (LinComb.zero : LinComb (ZMod 5))
            (LinComb.summand 0 (Variable.Private 0))) (Variable.Private 0)
          ≠ some 0 :=
  ⟨rfl,
    (add_sub_normalize_right LinComb.zero _ (Variable.Private 0) 0 rfl).1,
    (add_sub_normalize_right LinComb.zero _ (Variable.Private 0) 0 rfl).2⟩

/-- C4 counterexample: `zero().add(a)` is not `a` when `a` carries an
explicit zero coefficient: over `ZMod 5` the loop visits `Private 0`,
computes the zero sum and removes the key, so the left identity fails for
`a = summand(0, Private 0)`. -/
theorem zero_add_counterexample :
    LinComb.add LinComb.zero (LinComb.summand (0 : ZMod 5) (Variable.Private 0))
      ≠ LinComb.summand (0 : ZMod 5) (Variable.Private 0) := by
  intro h
  have hv := congrFun h (Variable.Private 0)
  simp [LinComb.add, LinComb.zero, LinComb.summand, LinComb.getOr0] at hv

/-- C4 amended: `a.add(zero())` equals `a` for every LinearCombination `a`;
`zero().add(a)` equals `a` for every `a` whose mapping carries no explicit
zero coefficient (for non-canonical `a` the zero entries are pruned
instead). -/
theorem zero_additive_identity {T : Type} [CommRing T] [DecidableEq T]
    (a : LinComb T) :
    a.add LinComb.zero = a ∧ (a.Canonical → LinComb.zero.add a = a) := by
  constructor
  · funext k
    simp [LinComb.add, LinComb.zero]
  · intro ha
    funext k
    unfold LinComb.add LinComb.zero LinComb.getOr0
    cases h : a k with
    | none => simp
    | some w =>
      have hw : w ≠ 0 := fun h0 => ha k (h0 ▸ h)
      simp [hw]

/-- C5 counterexample: addition is not commutative on non-canonical
operands: over `ZMod 5`, with `a = summand(0, Private 0)` and
`b = zero()`, `a.add(b)` keeps the explicit zero entry while `b.add(a)`
prunes it, so the two results differ structurally. -/
theorem add_comm_counterexample :
    LinComb.add (LinComb.summand (0 : ZMod 5) (Variable.Private 0))
        LinComb.zero
      ≠ LinComb.add LinComb.zero
          (LinComb.summand (0 : ZMod 5) (Variable.Private 0)) := by
  intro h
  have hv := congrFun h (Variable.Private 0)
  simp [LinComb.add, LinComb.zero, LinComb.summand, LinComb.getOr0] at hv

/-- C5 amended: addition is commutative on canonical operands: whenever
neither `a` nor `b` carries an explicit zero coefficient, `a.add(b)` and
`b.add(a)` are structurally equal. -/
theorem add_comm_canonical {T : Type} [CommRing T] [DecidableEq T]
    (a b : LinComb T) (ha : a.Canonical) (hb : b.Canonical) :
    a.add b = b.add a := by
  funext k
  unfold LinComb.add LinComb.getOr0
  cases hA : a k with
  | none =>
    cases hB : b k with
    | none => simp
    | some w =>
      have hw : w ≠ 0 := fun h0 => hb k (h0 ▸ hB)
      simp [hw]
  | some u =>
    have hu : u ≠ 0 := fun h0 => ha k (h0 ▸ hA)
    cases hB : b k with
    | none => simp [hu]
    | some w =>
      simp only [Option.getD_some]
      rw [add_comm w u]

/-- C5 witness: over `ZMod 101`, `summand(3, Private 42)` and
`summand(4, Private 33)` are both canonical and add commutatively. -/
theorem add_comm_canonical_witness :
    LinComb.Canonical (LinComb.summand (3 : ZMod 101) (Variable.Private 42)) ∧
      LinComb.Canonical (LinComb.summand (4 : ZMod 101) (Variable.Private 33)) ∧
      LinComb.add (LinComb.summand (3 : ZMod 101) (Variable.Private 42))
          (LinComb.summand 4 (Variable.Private 33))
        = LinComb.add (LinComb.summand (4 : ZMod 101) (Variable.Private 33))
            (LinComb.summand 3 (Variable.Private 42)) := by
  have h3 : LinComb.Canonical
      (LinComb.summand (3 : ZMod 101) (Variable.Private 42)) := by
    intro k
    unfold LinComb.summand
    by_cases hk : k = Variable.Private 42 <;> simp [hk] <;> decide
  have h4 : LinComb.Canonical
      (LinComb.summand (4 : ZMod 101) (Variable.Private 33)) := by
    intro k
    unfold LinComb.summand
    by_cases hk : k = Variable.Private 33 <;> simp [hk] <;> decide
  exact ⟨h3, h4, add_comm_canonical _ _ h3 h4⟩

/-- C7 counterexample: in the field with two elements the claim fails:
`1 + 1 = 0`, so over `ZMod 2` the `add` loop removes the key and
`summand(1, v).add(summand(1, v))` is the empty map, while `summand(2, v)`
is a one-entry map holding the explicit coefficient `2 = 0`. -/
theorem accumulate_char_two_counterexample :
    LinComb.add (LinComb.summand (1 : ZMod 2) (Variable.Private 0))
        (LinComb.summand 1 (Variable.Private 0))
      ≠ LinComb.summand (2 : ZMod 2) (Variable.Private 0) := by
  intro h
  have hv := congrFun h (Variable.Private 0)
  exact absurd hv (by decide)

/-- C7 amended: over every field in which `1 + 1` is not the additive
identity (characteristic other than 2), `summand(1, v).add(summand(1, v))`
is structurally equal to `summand(2, v)`: the coefficient accumulates by
field addition under the same single key. -/
theorem add_accumulates {T : Type} [CommRing T] [DecidableEq T]
    (v : Variable) (h2 : (1 : T) + 1 ≠ 0) :
    LinComb.add (LinComb.summand 1 v) (LinComb.summand 1 v)
      = LinComb.summand (2 : T) v := by
  funext k
  unfold LinComb.add LinComb.summand LinComb.getOr0
  by_cases hk : k = v
  · have h2b : (2 : T) ≠ 0 := fun h0 => h2 (by rw [one_add_one_eq_two]; exact h0)
    simp [hk, one_add_one_eq_two, h2b]
  · simp [hk]

/-- C7 witness: over `ZMod 5` (characteristic 5), doubling
`summand(1, Private 0)` yields `summand(2, Private 0)`. -/
theorem add_accumulates_witness :
    (1 : ZMod 5) + 1 ≠ 0 ∧
      LinComb.add (LinComb.summand (1 : ZMod 5) (Variable.Private 0))
          (LinComb.summand 1 (Variable.Private 0))
        = LinComb.summand (2 : ZMod 5) (Variable.Private 0) :=
  ⟨by decide, add_accumulates (Variable.Private 0) (by decide)⟩

/-- C4 witness: over `ZMod 5`, `summand(3, Private 0)` is canonical and
both additive-identity equations hold for it. -/
theorem zero_additive_identity_witness :
    LinComb.Canonical (LinComb.summand (3 : ZMod 5) (Variable.Private 0)) ∧
      (LinComb.add (LinComb.summand (3 : ZMod 5) (Variable.Private 0))
            LinComb.zero
          = LinComb.summand (3 : ZMod 5) (Variable.Private 0) ∧
        LinComb.add LinComb.zero
            (LinComb.summand (3 : ZMod 5) (Variable.Private 0))
          = LinComb.summand (3 : ZMod 5) (Variable.Private 0)) := by
  have hc : LinComb.Canonical
      (LinComb.summand (3 : ZMod 5) (Variable.Private 0)) := by
    intro k
    unfold LinComb.summand
    by_cases hk : k = Variable.Private 0 <;> simp [hk] <;> decide
  exact ⟨hc, (zero_additive_identity _).1, (zero_additive_identity _).2 hc⟩
